import Mathlib

/-!
Verification development for the scrcpy-web device-session engine.

The definitions below are a shallow embedding of the JavaScript sources
`src/ScrcpyClient.js` and `src/main.js`:

* the stream framer `ScrcpyClient._processData` (buffer accumulation plus a
  `HEADER` / `STREAMING` × `PACKET_META` / `PACKET_DATA` state machine);
* the touch-message encoder `ScrcpyClient.sendTouch`;
* the lifecycle teardown `ScrcpyClient.stop` and the scanner removal path;
* the port allocator `allocPort` / `freePort` of `main.js`;
* the device scanner `deviceScanner` of `main.js`;
* the keyframe cache `cacheNal` and the WebSocket connection replay.

Buffers are modelled as `List Nat` (one entry per byte); machine integers are
`Nat` / `Int` with explicit reductions modulo `2 ^ w` where the source relies
on fixed-width behaviour.
-/

/-- Read state of the framer: `this.readState` in `ScrcpyClient.js`
(`'HEADER'` or `'STREAMING'`). -/
inductive RState where
  | header
  | streaming
deriving DecidableEq, Repr

/-- Stream sub-state of the framer: `this.streamState`
(`'PACKET_META'` or `'PACKET_DATA'`). -/
inductive SState where
  | packetMeta
  | packetData
deriving DecidableEq, Repr

/-- An event emitted by the framer: either the `'ready'` event carrying the
decoded device info, or a `'video-data'` event carrying one packet payload. -/
inductive Event where
  | deviceInfo (name : List Nat) (width height : Nat)
  | videoPacket (payload : List Nat)
deriving DecidableEq, Repr

/-- Result of one run of the `while` loop in `_processData`: the events that
were emitted, the unconsumed tail of the buffer, and the updated fields
`readState`, `streamState` and `currentPacketSize`. -/
structure LoopOut where
  events : List Event
  rest : List Nat
  readState : RState
  streamState : SState
  currentPacketSize : Nat
deriving DecidableEq, Repr

/-- `Buffer.readUInt32BE(buf, off)`: big-endian 32-bit read at offset `off`. -/
def readUInt32BE (buf : List Nat) (off : Nat) : Nat :=
  buf.getD off 0 * 16777216 + buf.getD (off + 1) 0 * 65536 +
    buf.getD (off + 2) 0 * 256 + buf.getD (off + 3) 0

/-- The device-name decoding of `_processData`:
`nameBytes.toString('utf8').replace(/\0/g, '')` removes every NUL byte from
the 64-byte name field.  We work at the byte level, so the decoded name is the
byte list with all zero bytes removed. -/
def decodeName (buf : List Nat) : List Nat :=
  (buf.take 64).filter (fun b => b ≠ 0)

/-- Fuel-indexed body of the `while (remaining > 0)` loop of `_processData`.
Each unit consumed matches the current state: a 76-byte header, a 12-byte
packet meta (size field read at offset 8), or `currentPacketSize` payload
bytes.  On insufficient bytes the loop breaks and the unconsumed tail is
retained.  The fuel only forces termination; `runLoopFuel_stable` shows that
any fuel above `2 * buf.length + stateRank` yields the same (exact) result,
so the wrapper `runLoop` below computes the loop's true fixpoint. -/
def runLoopFuel : Nat → List Nat → RState → SState → Nat → LoopOut
  | 0, buf, rs, ss, sz => ⟨[], buf, rs, ss, sz⟩
  | fuel + 1, buf, rs, ss, sz =>
    if buf.length = 0 then ⟨[], buf, rs, ss, sz⟩
    else
      match rs with
      | .header =>
        if buf.length < 76 then ⟨[], buf, rs, ss, sz⟩
        else
          let name := decodeName buf
          let width := readUInt32BE buf 68
          let height := readUInt32BE buf 72
          let r := runLoopFuel fuel (buf.drop 76) .streaming ss sz
          ⟨.deviceInfo name width height :: r.events, r.rest, r.readState,
            r.streamState, r.currentPacketSize⟩
      | .streaming =>
        match ss with
        | .packetMeta =>
          if buf.length < 12 then ⟨[], buf, rs, ss, sz⟩
          else
            runLoopFuel fuel (buf.drop 12) .streaming .packetData
              (readUInt32BE buf 8)
        | .packetData =>
          if buf.length < sz then ⟨[], buf, rs, ss, sz⟩
          else
            let r := runLoopFuel fuel (buf.drop sz) .streaming .packetMeta sz
            ⟨.videoPacket (buf.take sz) :: r.events, r.rest, r.readState,
              r.streamState, r.currentPacketSize⟩

/-- Measure bounding the number of loop iterations: a `PACKET_DATA` step with
a zero-size packet consumes no bytes but moves to `PACKET_META`, every other
step consumes at least 12 bytes. -/
def stateRank (rs : RState) (ss : SState) : Nat :=
  match rs, ss with
  | .streaming, .packetData => 1
  | _, _ => 0

/-- The `while (remaining > 0)` loop of `_processData`, run to completion:
`2 * buf.length + 2` iterations always suffice (`runLoopFuel_stable`). -/
def runLoop (buf : List Nat) (rs : RState) (ss : SState) (sz : Nat) : LoopOut :=
  runLoopFuel (2 * buf.length + 2) buf rs ss sz

/-- Framer state carried between calls to `_processData`: the accumulation
buffer and the three state fields of `ScrcpyClient`. -/
structure Framer where
  buffer : List Nat
  readState : RState
  streamState : SState
  currentPacketSize : Nat
deriving DecidableEq, Repr

/-- Initial framer state set up in the `ScrcpyClient` constructor. -/
def initFramer : Framer :=
  ⟨[], .header, .packetMeta, 0⟩

/-- `ScrcpyClient._processData(chunk)`: append the chunk to the buffer, run
the parsing loop, emit the events, and retain the unconsumed tail. -/
def processData (f : Framer) (chunk : List Nat) : List Event × Framer :=
  let r := runLoop (f.buffer ++ chunk) f.readState f.streamState f.currentPacketSize
  (r.events, ⟨r.rest, r.readState, r.streamState, r.currentPacketSize⟩)

/-- Feed a sequence of chunks to the framer, collecting all emitted events in
order (successive `'data'` callbacks on the tunnel socket). -/
def feedAll (f : Framer) : List (List Nat) → List Event × Framer
  | [] => ([], f)
  | c :: cs =>
    let r := processData f c
    let r2 := feedAll r.2 cs
    (r.1 ++ r2.1, r2.2)

/-- A framer state is quiescent when running the parsing loop on its buffer
makes no progress: everything parsable has already been consumed.  All states
reachable from `initFramer` through `_processData` are quiescent. -/
def Quiescent (f : Framer) : Prop :=
  runLoop f.buffer f.readState f.streamState f.currentPacketSize =
    ⟨[], f.buffer, f.readState, f.streamState, f.currentPacketSize⟩

/-- `Buffer.writeUInt32BE`: big-endian byte encoding of a 32-bit size. -/
def u32be (n : Nat) : List Nat :=
  [n / 16777216 % 256, n / 65536 % 256, n / 256 % 256, n % 256]

/-- The name decoding as the spec words it ("strip trailing NUL bytes when
decoding as text"): remove only the trailing run of zero bytes.  This is the
refinement comparison point for the header-decode claim; the source instead
removes every NUL byte (`decodeName`). -/
def stripTrailingNul (l : List Nat) : List Nat :=
  (l.reverse.dropWhile (fun b => b = 0)).reverse

/-- `Buffer.writeUInt16BE`: big-endian byte encoding of a 16-bit value. -/
def u16be (n : Nat) : List Nat :=
  [n / 256 % 256, n % 256]

/-- `Buffer.writeInt32BE`: big-endian two's-complement encoding of a 32-bit
signed value. -/
def i32be (v : Int) : List Nat :=
  u32be (v.emod 4294967296).toNat

/-- Overwrite bytes of `buf` starting at offset `off` with the bytes `bs`
(the behaviour of Node's in-place `Buffer.write*BE` calls on an allocated
buffer, byte by byte). -/
def writeAt : List Nat → Nat → List Nat → List Nat
  | buf, _, [] => buf
  | [], _, _ => []
  | _ :: l, 0, c :: cs => c :: writeAt l 0 cs
  | b :: l, o + 1, cs => b :: writeAt l o cs

/-- The 32-byte touch message built by `ScrcpyClient.sendTouch`:
`Buffer.alloc(32)` followed by the nine `write*BE` calls of the source, in
source order. -/
def touchBuffer (action : Nat) (x y : Int) (w h : Nat) : List Nat :=
  let b := List.replicate 32 0
  let b := writeAt b 0 [2]
  let b := writeAt b 1 [action]
  let b := writeAt b 10 (i32be x)
  let b := writeAt b 14 (i32be y)
  let b := writeAt b 18 (u16be w)
  let b := writeAt b 20 (u16be h)
  let b := writeAt b 22 (u16be (if action = 1 then 0 else 65535))
  let b := writeAt b 24 (u32be 1)
  let b := writeAt b 28 (i32be 0)
  b

/-- The part of the `ScrcpyClient` state read by `sendTouch`: the (optional)
tunnel socket and the device dimensions populated by the header's
`DeviceInfo`. -/
structure TouchClient where
  socket : Option Unit
  width : Nat
  height : Nat
deriving DecidableEq

/-- `ScrcpyClient.sendTouch(action, xPercent, yPercent)`: guard
`if (!this.socket || !this.deviceInfo.width) return;`, then scale the
fractional coordinates by the device dimensions with `Math.round` and write
the 32-byte touch message to the socket.  The result pairs the (unchanged)
client state with the bytes written, `none` when the guard fired. -/
def sendTouch (c : TouchClient) (action : Nat) (xPercent yPercent : ℚ) :
    TouchClient × Option (List Nat) :=
  if c.socket = none ∨ c.width = 0 then (c, none)
  else
    let x : Int := round (xPercent * (c.width : ℚ))
    let y : Int := round (yPercent * (c.height : ℚ))
    (c, some (touchBuffer action x y c.width c.height))

/-- The ascending scan of `allocPort` in `main.js`
(`for (let p = 27183; p < 28000; p++)`), with one unit of fuel per port in
the range; `usedPorts` is the JS `Set` modelled as a list with
membership-based operations.  Running out of fuel is exactly reaching the end
of the range: `throw new Error('No available ports')`. -/
def allocPortGo : Nat → Nat → List Nat → Except String (Nat × List Nat)
  | _, 0, _ => .error "No available ports"
  | p, fuel + 1, used =>
    if p ∈ used then allocPortGo (p + 1) fuel used
    else .ok (p, used.insert p)

/-- `allocPort()` of `main.js`: scan ports 27183..27999 ascending, lease the
first free one (`usedPorts.add(p)`), throw when the whole range is leased.
`817 = 28000 - 27183` is the number of loop iterations. -/
def allocPort (used : List Nat) : Except String (Nat × List Nat) :=
  allocPortGo 27183 817 used

/-- `freePort(p)` of `main.js`: `usedPorts.delete(p)`. -/
def freePort (p : Nat) (used : List Nat) : List Nat :=
  used.erase p

/-- The global mutable state of `main.js` touched by the scanner:
`activeClients` (serial → leased port; the `client` object's internals are
modelled separately), `deviceBuffers` (serials with a NAL-cache entry) and
`usedPorts`. -/
structure World where
  activeClients : List (String × Nat)
  deviceBuffers : List String
  usedPorts : List Nat
deriving DecidableEq

/-- One observable mutation performed by a scanner tick. -/
inductive ScanAction where
  | stopClient (serial : String)
  | portFreed (port : Nat)
  | portAllocated (port : Nat)
  | clientCreated (serial : String) (port : Nat)
deriving DecidableEq

/-- The removal phase of `deviceScanner`: for every registered client whose
serial is no longer in the discovered set, stop it, free its port and delete
it from `activeClients` and `deviceBuffers`. -/
def scanRemoveGo : List (String × Nat) → List String → World → World × List ScanAction
  | [], _, w => (w, [])
  | (s, p) :: rest, devices, w =>
    if s ∈ devices then scanRemoveGo rest devices w
    else
      let w' : World :=
        ⟨w.activeClients.filter (fun e => e.1 ≠ s),
         w.deviceBuffers.filter (fun t => t ≠ s),
         freePort p w.usedPorts⟩
      let r := scanRemoveGo rest devices w'
      (r.1, .stopClient s :: .portFreed p :: r.2)

/-- The addition phase of `deviceScanner`: for every discovered serial not
already registered, allocate a port and register a new client.  A thrown
`allocPort` error propagates out of the `for` loop into the scanner's
`catch`, aborting the rest of the phase with no further mutation. -/
def scanAddGo : List String → World → World × List ScanAction
  | [], w => (w, [])
  | d :: rest, w =>
    if w.activeClients.any (fun e => e.1 == d) then scanAddGo rest w
    else
      match allocPort w.usedPorts with
      | .error _ => (w, [])
      | .ok (p, used') =>
        let w' : World :=
          ⟨w.activeClients ++ [(d, p)], w.deviceBuffers ++ [d], used'⟩
        let r := scanAddGo rest w'
        (r.1, .portAllocated p :: .clientCreated d p :: r.2)

/-- One `deviceScanner()` tick of `main.js` against the discovered device
set: removal phase over a snapshot of the registered clients, then addition
phase. -/
def deviceScanner (w : World) (devices : List String) : World × List ScanAction :=
  let r1 := scanRemoveGo w.activeClients devices w
  let r2 := scanAddGo devices r1.1
  (r2.1, r1.2 ++ r2.2)

/-- The resource handles owned by a `ScrcpyClient` and nulled out by
`stop()`. -/
structure ClientHandles where
  socket : Option Unit
  localServer : Option Unit
  adbProcess : Option Unit
deriving DecidableEq

/-- Observable release steps during teardown. -/
inductive StopAction where
  | destroySocket
  | closeServer
  | killProcess
  | emitStopped
  | portReleased (port : Nat)
deriving DecidableEq

/-- `ScrcpyClient.stop()`: destroy the socket if present, close the local
listener if present, kill the agent subprocess if present (wrapped in
`try/catch`, so a failure there cannot skip the rest), null all three
handles, and emit `'stopped'`.  It does not touch the port pool. -/
def stopClient (c : ClientHandles) : ClientHandles × List StopAction :=
  (⟨none, none, none⟩,
    (if c.socket.isSome then [StopAction.destroySocket] else []) ++
      (if c.localServer.isSome then [StopAction.closeServer] else []) ++
      (if c.adbProcess.isSome then [StopAction.killProcess] else []) ++
      [StopAction.emitStopped])

/-- A session's slice of the global state: its client handles, its leased
port, and the global `usedPorts` set. -/
structure SessWorld where
  client : ClientHandles
  port : Nat
  usedPorts : List Nat
deriving DecidableEq

/-- The agent-exit path: `adbProcess.on('close', ...)` calls `this.stop()`
and nothing else — in particular `freePort` is not called (only `main.js`'s
scanner removal path calls it). -/
def onAgentExit (w : SessWorld) : SessWorld × List StopAction :=
  let r := stopClient w.client
  (⟨r.1, w.port, w.usedPorts⟩, r.2)

/-- The scanner removal path of `main.js` (device vanished from the
discovered set): `info.client.stop(); freePort(info.port); ...`. -/
def scannerRemoveSession (w : SessWorld) : SessWorld × List StopAction :=
  let r := stopClient w.client
  (⟨r.1, w.port, freePort w.port w.usedPorts⟩,
    r.2 ++ [StopAction.portReleased w.port])

/-- The per-device NAL cache of `main.js` (`deviceBuffers` entry):
latest-wins slots for SPS (parameter-set-A), PPS (parameter-set-B) and IDR
(keyframe). -/
structure NalCache where
  sps : Option (List Nat)
  pps : Option (List Nat)
  idr : Option (List Nat)
deriving DecidableEq

/-- `cacheNal(serial, buf)` of `main.js`: classify by `buf[4] & 0x1f`
(NAL type 7 = SPS, 8 = PPS, 5 = IDR) and overwrite the matching slot. -/
def cacheNal (cache : NalCache) (buf : List Nat) : NalCache :=
  let nalType := buf.getD 4 0 &&& 31
  if nalType = 7 then { cache with sps := some buf }
  else if nalType = 8 then { cache with pps := some buf }
  else if nalType = 5 then { cache with idr := some buf }
  else cache

/-- The replay performed by the WebSocket connection handler:
`if (buf.sps) ws.send(buf.sps); if (buf.pps) ws.send(buf.pps);
if (buf.idr) ws.send(buf.idr);` — SPS first, then PPS, then IDR, each only
when cached. -/
def replayCache (cache : NalCache) : List (List Nat) :=
  (match cache.sps with | some b => [b] | none => []) ++
    (match cache.pps with | some b => [b] | none => []) ++
    (match cache.idr with | some b => [b] | none => [])

/-- One device's video fan-out state: the NAL cache and the connected
viewers, each with the ordered list of video messages sent to it so far. -/
structure WsWorld where
  cache : NalCache
  viewers : List (Nat × List (List Nat))
deriving DecidableEq

/-- A new WebSocket connection for this device: the cached NAL units are
sent to the new viewer immediately, before any live packet, and the viewer
joins the subscriber set. -/
def onConnection (w : WsWorld) (vid : Nat) : WsWorld :=
  ⟨w.cache, w.viewers ++ [(vid, replayCache w.cache)]⟩

/-- The `'video-data'` handler: `cacheNal` first, then `broadcast`, which
sends the packet to every connected viewer of this device. -/
def onVideoData (w : WsWorld) (buf : List Nat) : WsWorld :=
  ⟨cacheNal w.cache buf, w.viewers.map (fun v => (v.1, v.2 ++ [buf]))⟩

/-- The messages a viewer has received, `none` when it is not connected. -/
def viewerLog (w : WsWorld) (vid : Nat) : Option (List (List Nat)) :=
  (w.viewers.find? (fun v => v.1 == vid)).map (fun v => v.2)

theorem stateRank_data : stateRank .streaming .packetData = 1 := rfl

theorem stateRank_meta : stateRank .streaming .packetMeta = 0 := rfl

theorem stateRank_le (rs : RState) (ss : SState) : stateRank rs ss ≤ 1 := by
  cases rs <;> cases ss <;> simp [stateRank]

theorem runLoopFuel_stable (f1 : Nat) :
    ∀ f2 buf rs ss sz, 2 * buf.length + stateRank rs ss < f1 →
      2 * buf.length + stateRank rs ss < f2 →
      runLoopFuel f1 buf rs ss sz = runLoopFuel f2 buf rs ss sz := by
  induction f1 with
  | zero => intro f2 buf rs ss sz h1 _; omega
  | succ g ih =>
    intro f2 buf rs ss sz h1 h2
    obtain ⟨k, rfl⟩ : ∃ k, f2 = k + 1 := ⟨f2 - 1, by omega⟩
    show runLoopFuel (g + 1) buf rs ss sz = runLoopFuel (k + 1) buf rs ss sz
    simp only [runLoopFuel]
    by_cases hb : buf.length = 0
    · simp [hb]
    · simp only [hb, if_false]
      match rs with
      | .header =>
        by_cases h76 : buf.length < 76
        · simp [h76]
        · simp only [h76, if_false]
          have hlen : (buf.drop 76).length = buf.length - 76 := by
            simp [List.length_drop]
          have hr0 := stateRank_le .streaming ss
          have hr1 := stateRank_le .header ss
          have := ih k (buf.drop 76) .streaming ss sz
            (by rw [hlen]; omega) (by rw [hlen]; omega)
          rw [this]
      | .streaming =>
        match ss with
        | .packetMeta =>
          by_cases h12 : buf.length < 12
          · simp [h12]
          · simp only [h12, if_false]
            have hlen : (buf.drop 12).length = buf.length - 12 := by
              simp [List.length_drop]
            rw [stateRank_meta] at h1 h2
            exact ih k (buf.drop 12) .streaming .packetData (readUInt32BE buf 8)
              (by rw [hlen, stateRank_data]; omega)
              (by rw [hlen, stateRank_data]; omega)
        | .packetData =>
          by_cases hsz : buf.length < sz
          · simp [hsz]
          · simp only [hsz, if_false]
            have hlen : (buf.drop sz).length = buf.length - sz := by
              simp [List.length_drop]
            rw [stateRank_data] at h1 h2
            have := ih k (buf.drop sz) .streaming .packetMeta sz
              (by rw [hlen, stateRank_meta]; omega)
              (by rw [hlen, stateRank_meta]; omega)
            rw [this]

theorem runLoop_eq_fuel (f : Nat) (buf : List Nat) (rs : RState) (ss : SState)
    (sz : Nat) (h : 2 * buf.length + stateRank rs ss < f) :
    runLoop buf rs ss sz = runLoopFuel f buf rs ss sz :=
  runLoopFuel_stable _ f buf rs ss sz
    (by have := stateRank_le rs ss; omega) h

theorem runLoop_nil (rs : RState) (ss : SState) (sz : Nat) :
    runLoop [] rs ss sz = ⟨[], [], rs, ss, sz⟩ := rfl

theorem runLoop_header_stuck (buf : List Nat) (ss : SState) (sz : Nat)
    (h : buf.length < 76) :
    runLoop buf .header ss sz = ⟨[], buf, .header, ss, sz⟩ := by
  rw [runLoop_eq_fuel (2 * buf.length + stateRank .header ss + 1) _ _ _ _ (by omega)]
  simp only [runLoopFuel]
  by_cases hb : buf.length = 0
  · simp [hb]
  · simp [hb, h]

theorem runLoop_header_go (buf : List Nat) (ss : SState) (sz : Nat)
    (h : 76 ≤ buf.length) :
    runLoop buf .header ss sz =
      let r := runLoop (buf.drop 76) .streaming ss sz
      ⟨.deviceInfo (decodeName buf) (readUInt32BE buf 68) (readUInt32BE buf 72)
          :: r.events, r.rest, r.readState, r.streamState, r.currentPacketSize⟩ := by
  obtain ⟨n, hn⟩ : ∃ n, n = 2 * buf.length + 1 := ⟨_, rfl⟩
  rw [runLoop_eq_fuel (n + 1) _ _ _ _
    (by have := stateRank_le .header ss; omega)]
  simp only [runLoopFuel]
  have hb : ¬buf.length = 0 := by omega
  have h76 : ¬buf.length < 76 := by omega
  simp only [hb, h76, if_false]
  have hdrop : (buf.drop 76).length = buf.length - 76 := by
    simp [List.length_drop]
  rw [← runLoop_eq_fuel n (buf.drop 76) .streaming ss sz
    (by have := stateRank_le .streaming ss; omega)]

theorem runLoop_meta_stuck (buf : List Nat) (sz : Nat) (h : buf.length < 12) :
    runLoop buf .streaming .packetMeta sz = ⟨[], buf, .streaming, .packetMeta, sz⟩ := by
  rw [runLoop_eq_fuel (2 * buf.length + 1) _ _ _ _ (by rw [stateRank_meta]; omega)]
  simp only [runLoopFuel]
  by_cases hb : buf.length = 0
  · simp [hb]
  · simp [hb, h]

theorem runLoop_meta_go (buf : List Nat) (sz : Nat) (h : 12 ≤ buf.length) :
    runLoop buf .streaming .packetMeta sz =
      runLoop (buf.drop 12) .streaming .packetData (readUInt32BE buf 8) := by
  obtain ⟨n, hn⟩ : ∃ n, n = 2 * buf.length + 1 := ⟨_, rfl⟩
  rw [runLoop_eq_fuel (n + 1) _ _ _ _ (by rw [stateRank_meta]; omega)]
  simp only [runLoopFuel]
  have hb : ¬buf.length = 0 := by omega
  have h12 : ¬buf.length < 12 := by omega
  simp only [hb, h12, if_false]
  have hdrop : (buf.drop 12).length = buf.length - 12 := by
    simp [List.length_drop]
  rw [← runLoop_eq_fuel n (buf.drop 12) .streaming .packetData
    (readUInt32BE buf 8) (by rw [stateRank_data]; omega)]

theorem runLoop_data_stuck (buf : List Nat) (sz : Nat) (h : buf.length < sz) :
    runLoop buf .streaming .packetData sz = ⟨[], buf, .streaming, .packetData, sz⟩ := by
  rw [runLoop_eq_fuel (2 * buf.length + 2) _ _ _ _ (by rw [stateRank_data]; omega)]
  show runLoopFuel (2 * buf.length + 1 + 1) buf .streaming .packetData sz = _
  simp only [runLoopFuel]
  by_cases hb : buf.length = 0
  · simp [hb]
  · simp [hb, h]

theorem runLoop_data_go (buf : List Nat) (sz : Nat) (hne : buf.length ≠ 0)
    (h : sz ≤ buf.length) :
    runLoop buf .streaming .packetData sz =
      let r := runLoop (buf.drop sz) .streaming .packetMeta sz
      ⟨.videoPacket (buf.take sz) :: r.events, r.rest, r.readState,
        r.streamState, r.currentPacketSize⟩ := by
  obtain ⟨n, hn⟩ : ∃ n, n = 2 * buf.length + 1 := ⟨_, rfl⟩
  rw [runLoop_eq_fuel (n + 1) _ _ _ _ (by rw [stateRank_data]; omega)]
  simp only [runLoopFuel]
  have hsz : ¬buf.length < sz := by omega
  simp only [hne, hsz, if_false]
  have hdrop : (buf.drop sz).length = buf.length - sz := by
    simp [List.length_drop]
  rw [← runLoop_eq_fuel n (buf.drop sz) .streaming .packetMeta
    sz (by rw [stateRank_meta]; omega)]

theorem readUInt32BE_append (buf extra : List Nat) (off : Nat)
    (h : off + 4 ≤ buf.length) :
    readUInt32BE (buf ++ extra) off = readUInt32BE buf off := by
  unfold readUInt32BE
  rw [List.getD_append _ _ _ _ (by omega), List.getD_append _ _ _ _ (by omega),
    List.getD_append _ _ _ _ (by omega), List.getD_append _ _ _ _ (by omega)]

theorem decodeName_append (buf extra : List Nat) (h : 64 ≤ buf.length) :
    decodeName (buf ++ extra) = decodeName buf := by
  unfold decodeName
  rw [List.take_append_of_le_length h]

/-- Feeding `buf ++ extra` to the parsing loop is the same as feeding `buf`
first and then continuing with the retained tail followed by `extra`.  This
is the heart of the framer's chunking invariance: the loop breaks exactly
when the buffered bytes do not complete the current unit, and the retained
tail plus the next chunk resumes where it left off. -/
theorem runLoop_append (n : Nat) :
    ∀ (buf extra : List Nat) (rs : RState) (ss : SState) (sz : Nat),
      2 * buf.length + stateRank rs ss ≤ n →
      runLoop (buf ++ extra) rs ss sz =
        (let r := runLoop buf rs ss sz
         let r2 := runLoop (r.rest ++ extra) r.readState r.streamState
           r.currentPacketSize
         ⟨r.events ++ r2.events, r2.rest, r2.readState, r2.streamState,
           r2.currentPacketSize⟩) := by
  induction n using Nat.strong_induction_on with
  | _ n ih =>
    intro buf extra rs ss sz hm
    match buf, rs, ss with
    | [], rs, ss =>
      simp [runLoop_nil]
    | b :: bs, .header, ss =>
      by_cases h76 : (b :: bs).length < 76
      · rw [runLoop_header_stuck _ _ _ h76]
        simp
      · push_neg at h76
        have h64 : 64 ≤ (b :: bs).length := by omega
        have hgo := runLoop_header_go ((b :: bs) ++ extra) ss sz
          (by rw [List.length_append]; omega)
        rw [hgo, runLoop_header_go _ _ _ h76]
        simp only
        rw [decodeName_append _ _ h64,
          readUInt32BE_append _ _ _ (by omega),
          readUInt32BE_append _ _ _ (by omega),
          List.drop_append_of_le_length (by omega)]
        have hdlen : ((b :: bs).drop 76).length = (b :: bs).length - 76 := by
          simp [List.length_drop]
        have hr0 := stateRank_le .streaming ss
        have hrec := ih (2 * ((b :: bs).drop 76).length + stateRank .streaming ss)
          (by rw [hdlen]; omega)
          ((b :: bs).drop 76) extra .streaming ss sz le_rfl
        rw [hrec]
        simp
    | b :: bs, .streaming, .packetMeta =>
      rw [stateRank_meta] at hm
      by_cases h12 : (b :: bs).length < 12
      · rw [runLoop_meta_stuck _ _ h12]
        simp
      · push_neg at h12
        have hgo := runLoop_meta_go ((b :: bs) ++ extra) sz
          (by rw [List.length_append]; omega)
        rw [hgo, runLoop_meta_go _ _ h12]
        rw [readUInt32BE_append _ _ _ (by omega),
          List.drop_append_of_le_length (by omega)]
        have hdlen : ((b :: bs).drop 12).length = (b :: bs).length - 12 := by
          simp [List.length_drop]
        have hrec := ih (2 * ((b :: bs).drop 12).length + stateRank .streaming .packetData)
          (by rw [hdlen, stateRank_data]; omega)
          ((b :: bs).drop 12) extra .streaming .packetData
          (readUInt32BE (b :: bs) 8) le_rfl
        rw [hrec]
    | b :: bs, .streaming, .packetData =>
      rw [stateRank_data] at hm
      by_cases hsz : (b :: bs).length < sz
      · rw [runLoop_data_stuck _ _ hsz]
        simp
      · push_neg at hsz
        have hgo := runLoop_data_go ((b :: bs) ++ extra) sz
          (by simp) (by rw [List.length_append]; omega)
        rw [hgo, runLoop_data_go _ _ (by simp) hsz]
        simp only
        rw [List.take_append_of_le_length hsz,
          List.drop_append_of_le_length hsz]
        have hdlen : ((b :: bs).drop sz).length = (b :: bs).length - sz := by
          simp [List.length_drop]
        have hlen0 : 0 < (b :: bs).length := by simp
        have hrec := ih (2 * ((b :: bs).drop sz).length + stateRank .streaming .packetMeta)
          (by rw [hdlen, stateRank_meta]; omega)
          ((b :: bs).drop sz) extra .streaming .packetMeta sz le_rfl
        rw [hrec]
        simp

/-- Splitting one `_processData` call into two calls at any byte boundary
yields the same events (in order) and the same final framer state. -/
theorem processData_split (f : Framer) (c1 c2 : List Nat) :
    processData f (c1 ++ c2) =
      (let r := processData f c1
       let r2 := processData r.2 c2
       (r.1 ++ r2.1, r2.2)) := by
  unfold processData
  simp only
  rw [← List.append_assoc]
  rw [runLoop_append (2 * (f.buffer ++ c1).length + stateRank f.readState f.streamState)
    (f.buffer ++ c1) c2 f.readState f.streamState f.currentPacketSize le_rfl]

theorem quiescent_init : Quiescent initFramer := rfl

/-- The parsing loop runs to quiescence: re-running it on the retained tail
(with the final state) makes no further progress. -/
theorem runLoop_idem (n : Nat) :
    ∀ (buf : List Nat) (rs : RState) (ss : SState) (sz : Nat),
      2 * buf.length + stateRank rs ss ≤ n →
      (let r := runLoop buf rs ss sz
       runLoop r.rest r.readState r.streamState r.currentPacketSize =
         ⟨[], r.rest, r.readState, r.streamState, r.currentPacketSize⟩) := by
  induction n using Nat.strong_induction_on with
  | _ n ih =>
    intro buf rs ss sz hm
    match buf, rs, ss with
    | [], rs, ss =>
      simp [runLoop_nil]
    | b :: bs, .header, ss =>
      by_cases h76 : (b :: bs).length < 76
      · rw [runLoop_header_stuck _ _ _ h76]
        simp only
        rw [runLoop_header_stuck _ _ _ h76]
      · push_neg at h76
        rw [runLoop_header_go _ _ _ h76]
        have hdlen : ((b :: bs).drop 76).length = (b :: bs).length - 76 := by
          simp [List.length_drop]
        have hr0 := stateRank_le .streaming ss
        have := ih (2 * ((b :: bs).drop 76).length + stateRank .streaming ss)
          (by rw [hdlen]; omega)
          ((b :: bs).drop 76) .streaming ss sz le_rfl
        simpa using this
    | b :: bs, .streaming, .packetMeta =>
      rw [stateRank_meta] at hm
      by_cases h12 : (b :: bs).length < 12
      · rw [runLoop_meta_stuck _ _ h12]
        simp only
        rw [runLoop_meta_stuck _ _ h12]
      · push_neg at h12
        rw [runLoop_meta_go _ _ h12]
        have hdlen : ((b :: bs).drop 12).length = (b :: bs).length - 12 := by
          simp [List.length_drop]
        have := ih (2 * ((b :: bs).drop 12).length + stateRank .streaming .packetData)
          (by rw [hdlen, stateRank_data]; omega)
          ((b :: bs).drop 12) .streaming .packetData (readUInt32BE (b :: bs) 8) le_rfl
        simpa using this
    | b :: bs, .streaming, .packetData =>
      rw [stateRank_data] at hm
      by_cases hsz : (b :: bs).length < sz
      · rw [runLoop_data_stuck _ _ hsz]
        simp only
        rw [runLoop_data_stuck _ _ hsz]
      · push_neg at hsz
        rw [runLoop_data_go _ _ (by simp) hsz]
        have hdlen : ((b :: bs).drop sz).length = (b :: bs).length - sz := by
          simp [List.length_drop]
        have hlen0 : 0 < (b :: bs).length := by simp
        have := ih (2 * ((b :: bs).drop sz).length + stateRank .streaming .packetMeta)
          (by rw [hdlen, stateRank_meta]; omega)
          ((b :: bs).drop sz) .streaming .packetMeta sz le_rfl
        simpa using this

theorem quiescent_processData (f : Framer) (c : List Nat) :
    Quiescent (processData f c).2 := by
  unfold Quiescent processData
  simp only
  exact runLoop_idem
    (2 * (f.buffer ++ c).length + stateRank f.readState f.streamState)
    (f.buffer ++ c) f.readState f.streamState f.currentPacketSize le_rfl

theorem processData_nil (f : Framer) (h : Quiescent f) :
    processData f [] = ([], f) := by
  unfold processData
  simp only [List.append_nil]
  rw [h]

/-- Feeding chunks one at a time from a quiescent state is the same as
feeding their concatenation in one call. -/
theorem feedAll_flatten (cs : List (List Nat)) :
    ∀ (f : Framer), Quiescent f → feedAll f cs = processData f cs.flatten := by
  induction cs with
  | nil =>
    intro f h
    rw [List.flatten_nil, processData_nil f h]
    rfl
  | cons c cs ih =>
    intro f h
    rw [List.flatten_cons, processData_split]
    simp only [feedAll]
    rw [ih (processData f c).2 (quiescent_processData f c)]

/-- In the `STREAMING` read state the loop emits only `videoPacket` events:
`DeviceInfo` can only come from the initial `HEADER` state. -/
theorem runLoop_streaming_events (n : Nat) :
    ∀ (buf : List Nat) (ss : SState) (sz : Nat),
      2 * buf.length + stateRank .streaming ss ≤ n →
      ∀ e ∈ (runLoop buf .streaming ss sz).events, ∃ p, e = .videoPacket p := by
  induction n using Nat.strong_induction_on with
  | _ n ih =>
    intro buf ss sz hm e he
    match buf, ss with
    | [], ss =>
      rw [runLoop_nil] at he
      simp at he
    | b :: bs, .packetMeta =>
      rw [stateRank_meta] at hm
      by_cases h12 : (b :: bs).length < 12
      · rw [runLoop_meta_stuck _ _ h12] at he
        simp at he
      · push_neg at h12
        rw [runLoop_meta_go _ _ h12] at he
        have hdlen : ((b :: bs).drop 12).length = (b :: bs).length - 12 := by
          simp [List.length_drop]
        exact ih (2 * ((b :: bs).drop 12).length + stateRank .streaming .packetData)
          (by rw [hdlen, stateRank_data]; omega)
          ((b :: bs).drop 12) .packetData (readUInt32BE (b :: bs) 8) le_rfl e he
    | b :: bs, .packetData =>
      rw [stateRank_data] at hm
      by_cases hsz : (b :: bs).length < sz
      · rw [runLoop_data_stuck _ _ hsz] at he
        simp at he
      · push_neg at hsz
        rw [runLoop_data_go _ _ (by simp) hsz] at he
        simp only [List.mem_cons] at he
        rcases he with he | he
        · exact ⟨(b :: bs).take sz, he⟩
        · have hdlen : ((b :: bs).drop sz).length = (b :: bs).length - sz := by
            simp [List.length_drop]
          have hlen0 : 0 < (b :: bs).length := by simp
          exact ih (2 * ((b :: bs).drop sz).length + stateRank .streaming .packetMeta)
            (by rw [hdlen, stateRank_meta]; omega)
            ((b :: bs).drop sz) .packetMeta sz le_rfl e he

theorem events_all_videoPacket (evs : List Event)
    (h : ∀ e ∈ evs, ∃ p, e = .videoPacket p) :
    ∃ vps : List (List Nat), evs = vps.map .videoPacket := by
  induction evs with
  | nil => exact ⟨[], rfl⟩
  | cons e evs ih =>
    obtain ⟨p, hp⟩ := h e (by simp)
    obtain ⟨vps, hv⟩ := ih (fun e' he' => h e' (by simp [he']))
    exact ⟨p :: vps, by simp [hp, hv]⟩

theorem processData_init_header (stream : List Nat) (h : 76 ≤ stream.length) :
    ∃ tail, (processData initFramer stream).1 =
      .deviceInfo (decodeName stream) (readUInt32BE stream 68)
        (readUInt32BE stream 72) :: tail ∧
      ∀ e ∈ tail, ∃ p, e = .videoPacket p := by
  unfold processData initFramer
  simp only [List.nil_append]
  rw [runLoop_header_go stream .packetMeta 0 h]
  refine ⟨(runLoop (stream.drop 76) .streaming .packetMeta 0).events, rfl, ?_⟩
  exact runLoop_streaming_events
    (2 * (stream.drop 76).length + stateRank .streaming .packetMeta)
    (stream.drop 76) .packetMeta 0 le_rfl

/-- C1: for every byte stream consisting of a 76-byte header followed by N
complete packets (each an 8-byte PTS, a 4-byte big-endian size field equal to
the payload length, and that many payload bytes), feeding the stream to the
framer in one `_processData` call and feeding the identical bytes split at
arbitrary byte boundaries across multiple calls produce the same ordered
event sequence and the same final framer state (no byte lost or duplicated);
that common sequence is one `DeviceInfo` followed only by `VideoPacket`s. -/
theorem framer_chunk_invariance (hdr : List Nat)
    (pkts : List (List Nat × List Nat)) (chunks : List (List Nat))
    (hh : hdr.length = 76)
    (hp : ∀ pr ∈ pkts, pr.1.length = 8 ∧ pr.2.length < 4294967296)
    (hc : chunks.flatten =
      hdr ++ (pkts.map (fun pr => pr.1 ++ u32be pr.2.length ++ pr.2)).flatten) :
    feedAll initFramer chunks =
      processData initFramer
        (hdr ++ (pkts.map (fun pr => pr.1 ++ u32be pr.2.length ++ pr.2)).flatten) ∧
    ∃ vps : List (List Nat),
      (processData initFramer
        (hdr ++ (pkts.map (fun pr => pr.1 ++ u32be pr.2.length ++ pr.2)).flatten)).1 =
        Event.deviceInfo (decodeName hdr) (readUInt32BE hdr 68) (readUInt32BE hdr 72)
          :: vps.map Event.videoPacket := by
  constructor
  · rw [feedAll_flatten chunks initFramer quiescent_init, hc]
  · have hlen : 76 ≤ (hdr ++ (pkts.map
        (fun pr => pr.1 ++ u32be pr.2.length ++ pr.2)).flatten).length := by
      rw [List.length_append, hh]; omega
    obtain ⟨tail, htail, hvp⟩ := processData_init_header _ hlen
    obtain ⟨vps, hvps⟩ := events_all_videoPacket tail hvp
    refine ⟨vps, ?_⟩
    rw [htail, hvps, decodeName_append _ _ (by omega),
      readUInt32BE_append _ _ _ (by omega), readUInt32BE_append _ _ _ (by omega)]

/-- Witness for C1 at a concrete stream (one packet of two payload bytes),
split into two chunks at byte 50. -/
theorem framer_chunk_invariance_witness :
    feedAll initFramer
      [(List.replicate 76 0 ++ (List.replicate 8 0 ++ u32be 2 ++ [9, 9])).take 50,
       (List.replicate 76 0 ++ (List.replicate 8 0 ++ u32be 2 ++ [9, 9])).drop 50] =
    processData initFramer
      (List.replicate 76 0 ++
        ([(List.replicate 8 0, [9, 9])].map
          (fun pr => pr.1 ++ u32be pr.2.length ++ pr.2)).flatten) :=
  (framer_chunk_invariance (List.replicate 76 0) [(List.replicate 8 0, [9, 9])]
    [(List.replicate 76 0 ++ (List.replicate 8 0 ++ u32be 2 ++ [9, 9])).take 50,
     (List.replicate 76 0 ++ (List.replicate 8 0 ++ u32be 2 ++ [9, 9])).drop 50]
    (by decide) (by decide) (by decide)).1

theorem getD_append_skip (pre l : List Nat) (i : Nat) :
    (pre ++ l).getD (pre.length + i) 0 = l.getD i 0 := by
  rw [List.getD_append_right _ _ _ _ (by omega)]
  congr 1
  omega

theorem readUInt32BE_skip (pre l : List Nat) :
    readUInt32BE (pre ++ l) pre.length = readUInt32BE l 0 := by
  unfold readUInt32BE
  have h0 := getD_append_skip pre l 0
  have h1 := getD_append_skip pre l 1
  have h2 := getD_append_skip pre l 2
  have h3 := getD_append_skip pre l 3
  rw [Nat.add_zero] at h0
  rw [h0, h1, h2, h3]

/-- While awaiting packet data, a feed that still does not reach the declared
packet size emits nothing and only grows the retained buffer. -/
theorem processData_data_stuck (f : Framer) (chunk : List Nat)
    (hrs : f.readState = .streaming) (hss : f.streamState = .packetData)
    (hlt : (f.buffer ++ chunk).length < f.currentPacketSize) :
    processData f chunk = ([], { f with buffer := f.buffer ++ chunk }) := by
  unfold processData
  rw [hrs, hss, runLoop_data_stuck _ _ hlt]

/-- C5: after a 76-byte header, a 12-byte meta declaring payload size 5 and
only 3 payload bytes, the framer emits the `DeviceInfo` event but zero
`VideoPacket` events and waits in `PACKET_DATA` holding the 3 bytes; feeding
the remaining 2 bytes emits exactly one `VideoPacket` whose payload is the
full 5 bytes.  In general (third conjunct) the framer never emits a packet
whose declared size exceeds the buffered bytes: it retains partial state
until enough bytes arrive. -/
theorem framer_liveness (hdr pts p3 p2 : List Nat) (hh : hdr.length = 76)
    (hpt : pts.length = 8) (h3 : p3.length = 3) (h2 : p2.length = 2) :
    processData initFramer (hdr ++ (pts ++ u32be 5 ++ p3)) =
      ([Event.deviceInfo (decodeName hdr) (readUInt32BE hdr 68) (readUInt32BE hdr 72)],
        ⟨p3, .streaming, .packetData, 5⟩) ∧
    processData ⟨p3, .streaming, .packetData, 5⟩ p2 =
      ([Event.videoPacket (p3 ++ p2)], ⟨[], .streaming, .packetMeta, 5⟩) ∧
    (∀ (g : Framer) (chunk : List Nat), g.readState = .streaming →
      g.streamState = .packetData →
      (g.buffer ++ chunk).length < g.currentPacketSize →
      processData g chunk = ([], { g with buffer := g.buffer ++ chunk })) := by
  refine ⟨?_, ?_, fun g chunk hrs hss hlt => processData_data_stuck g chunk hrs hss hlt⟩
  · unfold processData initFramer
    simp only [List.nil_append]
    rw [runLoop_header_go _ _ _ (by simp [List.length_append]; omega)]
    simp only
    rw [decodeName_append _ _ (by omega), readUInt32BE_append _ _ _ (by omega),
      readUInt32BE_append _ _ _ (by omega)]
    have hdrop76 : (hdr ++ (pts ++ u32be 5 ++ p3)).drop 76 = pts ++ u32be 5 ++ p3 := by
      rw [← hh, List.drop_left]
    rw [hdrop76]
    have hmeta : 12 ≤ (pts ++ u32be 5 ++ p3).length := by
      simp [List.length_append, u32be]; omega
    rw [runLoop_meta_go _ _ hmeta]
    have hsz : readUInt32BE (pts ++ u32be 5 ++ p3) 8 = 5 := by
      rw [List.append_assoc, ← hpt, readUInt32BE_skip]
      have hu : u32be 5 ++ p3 = 0 :: 0 :: 0 :: 5 :: p3 := rfl
      rw [hu]
      simp [readUInt32BE, List.getD]
    have hdrop12 : (pts ++ u32be 5 ++ p3).drop 12 = p3 := by
      have : (pts ++ u32be 5).length = 12 := by simp [List.length_append, hpt, u32be]
      rw [← this, List.drop_left]
    rw [hsz, hdrop12, runLoop_data_stuck _ _ (by omega)]
  · unfold processData
    simp only
    have hne : (p3 ++ p2).length ≠ 0 := by
      rw [List.length_append, h3, h2]; omega
    have hlen : (p3 ++ p2).length = 5 := by
      rw [List.length_append, h3, h2]
    rw [runLoop_data_go _ _ hne (by omega)]
    simp only
    rw [← hlen, List.take_length, List.drop_length, runLoop_nil]

/-- Witness for C5 at concrete inputs. -/
theorem framer_liveness_witness :
    processData ⟨[1, 2, 3], .streaming, .packetData, 5⟩ [4, 5] =
      ([Event.videoPacket ([1, 2, 3] ++ [4, 5])], ⟨[], .streaming, .packetMeta, 5⟩) :=
  (framer_liveness (List.replicate 76 0) (List.replicate 8 0) [1, 2, 3] [4, 5]
    (by decide) (by decide) (by decide) (by decide)).2.1

/-- C2 (amended): the framer applies no plausibility ceiling to the 4-byte
size field.  From a quiescent `PACKET_META` state, a 12-byte meta declaring
ANY size — however implausible, up to `2^32 - 1` — is accepted without any
error: the framer moves to `PACKET_DATA` awaiting that many bytes (first
conjunct), and (second conjunct) every further feed short of the declared
size emits nothing and buffers all bytes, so memory use grows with the
declared size instead of a framing error tearing the session down. -/
theorem framer_no_size_ceiling (pts : List Nat) (b0 b1 b2 b3 : Nat) (f : Framer)
    (hrs : f.readState = .streaming) (hss : f.streamState = .packetMeta)
    (hb : f.buffer = []) (hpt : pts.length = 8) :
    processData f (pts ++ [b0, b1, b2, b3]) =
      ([], ⟨[], .streaming, .packetData,
        b0 * 16777216 + b1 * 65536 + b2 * 256 + b3⟩) ∧
    (∀ (g : Framer) (chunk : List Nat), g.readState = .streaming →
      g.streamState = .packetData →
      (g.buffer ++ chunk).length < g.currentPacketSize →
      processData g chunk = ([], { g with buffer := g.buffer ++ chunk })) := by
  refine ⟨?_, fun g chunk h1 h2 h3 => processData_data_stuck g chunk h1 h2 h3⟩
  unfold processData
  rw [hrs, hss, hb, List.nil_append]
  have hlen : (pts ++ [b0, b1, b2, b3]).length = 12 := by
    rw [List.length_append, hpt]
    rfl
  rw [runLoop_meta_go _ _ (by omega)]
  have hsz : readUInt32BE (pts ++ [b0, b1, b2, b3]) 8 =
      b0 * 16777216 + b1 * 65536 + b2 * 256 + b3 := by
    rw [← hpt, readUInt32BE_skip]
    simp [readUInt32BE, List.getD]
  have hdrop : (pts ++ [b0, b1, b2, b3]).drop 12 = [] := by
    rw [← hlen, List.drop_length]
  rw [hsz, hdrop, runLoop_nil]

/-- Witness for C2's amended theorem: the declared size `0xFFFFFFFF` is
accepted verbatim. -/
theorem framer_no_size_ceiling_witness :
    processData ⟨[], .streaming, .packetMeta, 0⟩
      (List.replicate 8 0 ++ [255, 255, 255, 255]) =
      ([], ⟨[], .streaming, .packetData, 4294967295⟩) := by
  have h := (framer_no_size_ceiling (List.replicate 8 0) 255 255 255 255
    ⟨[], .streaming, .packetMeta, 0⟩ rfl rfl rfl (by decide)).1
  simpa using h

/-- C2 counterexample to the claim as stated: feeding a header and then a
meta declaring the implausible size `0xFFFFFFFF` raises no framing error
(the framer has no error path at all — the event type of `_processData` has
only `'ready'` and `'video-data'`): it silently enters `PACKET_DATA` with
`currentPacketSize = 4294967295`, and a further 100-byte feed is silently
buffered in full while the framer keeps waiting for the remaining bytes. -/
theorem framer_no_size_ceiling_counterexample :
    (processData
      (processData
        (processData initFramer (List.replicate 76 1)).2
        (List.replicate 8 0 ++ [255, 255, 255, 255])).2
      (List.replicate 100 7)) =
      ([], ⟨List.replicate 100 7, .streaming, .packetData, 4294967295⟩) ∧
    (processData
      (processData initFramer (List.replicate 76 1)).2
      (List.replicate 8 0 ++ [255, 255, 255, 255])) =
      ([], ⟨[], .streaming, .packetData, 4294967295⟩) := by
  decide

/-- C6 (amended): for every input stream totalling at least 76 bytes, however
chunked, the framer emits `DeviceInfo` exactly once and before any
`VideoPacket`, decoded from the 76-byte header as: name = bytes [0,64) with
ALL NUL bytes removed (not only trailing ones), width = big-endian uint32 at
bytes [68,72), height = big-endian uint32 at bytes [72,76), bytes [64,68)
ignored. -/
theorem header_decode (chunks : List (List Nat))
    (h76 : 76 ≤ chunks.flatten.length) :
    ∃ tail, (feedAll initFramer chunks).1 =
      Event.deviceInfo (decodeName chunks.flatten)
        (readUInt32BE chunks.flatten 68) (readUInt32BE chunks.flatten 72) :: tail ∧
      ∀ e ∈ tail, ∃ p, e = Event.videoPacket p := by
  rw [feedAll_flatten chunks initFramer quiescent_init]
  exact processData_init_header chunks.flatten h76

/-- Witness for C6's amended theorem at a concrete two-chunk stream. -/
theorem header_decode_witness :
    ∃ tail, (feedAll initFramer
        [List.replicate 40 65, List.replicate 36 0]).1 =
      Event.deviceInfo
        (decodeName ([List.replicate 40 65, List.replicate 36 0] : List (List Nat)).flatten)
        (readUInt32BE ([List.replicate 40 65, List.replicate 36 0] : List (List Nat)).flatten 68)
        (readUInt32BE ([List.replicate 40 65, List.replicate 36 0] : List (List Nat)).flatten 72) :: tail ∧
      ∀ e ∈ tail, ∃ p, e = Event.videoPacket p :=
  header_decode [List.replicate 40 65, List.replicate 36 0] (by decide)

/-- C6 counterexample to the claim as stated: a header whose name field is
`[97, 0, 98]` padded with NULs.  The spec's decoding ("trailing NUL bytes
stripped") yields `[97, 0, 98]`, but the code (`replace(/\0/g, '')`) removes
the interior NUL as well, emitting the name `[97, 98]`. -/
theorem header_decode_counterexample :
    (processData initFramer
      ([97, 0, 98] ++ List.replicate 61 0 ++ [0, 0, 0, 0] ++
        [0, 0, 0, 1] ++ [0, 0, 0, 2])).1 =
      [Event.deviceInfo [97, 98] 1 2] ∧
    stripTrailingNul
      (([97, 0, 98] ++ List.replicate 61 0 ++ [0, 0, 0, 0] ++
        [0, 0, 0, 1] ++ [0, 0, 0, 2]).take 64) = [97, 0, 98] ∧
    ([97, 98] : List Nat) ≠ [97, 0, 98] := by
  decide

theorem touchBuffer_eq (action : Nat) (x y : Int) (w h : Nat) :
    touchBuffer action x y w h =
      [2, action, 0, 0, 0, 0, 0, 0, 0, 0] ++ i32be x ++ i32be y ++
        u16be w ++ u16be h ++ u16be (if action = 1 then 0 else 65535) ++
        u32be 1 ++ i32be 0 := rfl

/-- C3 (amended): every touch message is 32 bytes with byte [0] = 2 (the
touch message class), byte [1] = the action code, bytes [10,14) = x as
int32, bytes [14,18) = y as int32, bytes [18,20) = device WIDTH as uint16,
bytes [20,22) = device HEIGHT as uint16, bytes [22,24) = the
pressure-or-identifier uint16 (0 when the action is up (1), 65535
otherwise), bytes [24,28) = the constant 1 as uint32, and bytes [28,32) =
the constant 0 as int32.  (The claim as stated puts pressure at [18,20) and
the dimensions at [20,24); the source writes width at 18, height at 20 and
pressure at 22.)  The range hypotheses are the ranges outside which Node's
`write*BE` calls would throw instead of producing a message. -/
theorem touch_layout (action : Nat) (x y : Int) (w h : Nat)
    (ha : action < 256) (hx : -2147483648 ≤ x ∧ x < 2147483648)
    (hy : -2147483648 ≤ y ∧ y < 2147483648) (hw : w < 65536) (hh : h < 65536) :
    (touchBuffer action x y w h).length = 32 ∧
    (touchBuffer action x y w h).take 2 = [2, action] ∧
    ((touchBuffer action x y w h).drop 2).take 8 = List.replicate 8 0 ∧
    ((touchBuffer action x y w h).drop 10).take 4 = i32be x ∧
    ((touchBuffer action x y w h).drop 14).take 4 = i32be y ∧
    ((touchBuffer action x y w h).drop 18).take 2 = u16be w ∧
    ((touchBuffer action x y w h).drop 20).take 2 = u16be h ∧
    ((touchBuffer action x y w h).drop 22).take 2 =
      u16be (if action = 1 then 0 else 65535) ∧
    ((touchBuffer action x y w h).drop 24).take 4 = u32be 1 ∧
    (touchBuffer action x y w h).drop 28 = i32be 0 :=
  ⟨rfl, rfl, rfl, rfl, rfl, rfl, rfl, rfl, rfl, rfl⟩

/-- Witness for C3's amended layout theorem at concrete values. -/
theorem touch_layout_witness :
    ((touchBuffer 0 540 1200 1080 2400).drop 18).take 2 = u16be 1080 ∧
    ((touchBuffer 0 540 1200 1080 2400).drop 22).take 2 =
      u16be (if (0 : Nat) = 1 then 0 else 65535) :=
  ⟨(touch_layout 0 540 1200 1080 2400 (by decide)
      ⟨by decide, by decide⟩ ⟨by decide, by decide⟩ (by decide) (by decide)).2.2.2.2.2.1,
   (touch_layout 0 540 1200 1080 2400 (by decide)
      ⟨by decide, by decide⟩ ⟨by decide, by decide⟩ (by decide) (by decide)).2.2.2.2.2.2.2.1⟩

/-- C3 counterexample to the claim as stated: for a touch-down at
x=540, y=1200 on a 1080×2400 device, the claim says bytes [18,20) hold the
pressure sentinel 65535 (encoded `[255, 255]`); the message actually holds
the device width 1080 (encoded `[4, 56]`) there — width/height sit at
[18,22) and pressure at [22,24). -/
theorem touch_layout_counterexample :
    ((touchBuffer 0 540 1200 1080 2400).drop 18).take 2 = [4, 56] ∧
    ((touchBuffer 0 540 1200 1080 2400).drop 18).take 2 ≠ u16be 65535 ∧
    ((touchBuffer 0 540 1200 1080 2400).drop 22).take 2 = u16be 65535 := by
  decide

/-- C10: every `sendTouch` call made while no tunnel socket is present, or
before `DeviceInfo` has populated a nonzero device width, is a silent no-op:
no bytes are written, no error is raised, and the client state is
unchanged. -/
theorem sendTouch_noop (c : TouchClient) (action : Nat) (xPercent yPercent : ℚ)
    (h : c.socket = none ∨ c.width = 0) :
    sendTouch c action xPercent yPercent = (c, none) := by
  unfold sendTouch
  rw [if_pos h]

/-- Witness for C10 at a concrete client with no socket. -/
theorem sendTouch_noop_witness :
    sendTouch ⟨none, 1080, 2400⟩ 0 (1 / 2) (1 / 2) = (⟨none, 1080, 2400⟩, none) :=
  sendTouch_noop ⟨none, 1080, 2400⟩ 0 (1 / 2) (1 / 2) (Or.inl rfl)

theorem allocPortGo_spec (fuel : Nat) :
    ∀ (p : Nat) (used : List Nat),
      (∀ q u', allocPortGo p fuel used = .ok (q, u') →
        p ≤ q ∧ q < p + fuel ∧ q ∉ used ∧ u' = used.insert q ∧
        ∀ r, p ≤ r → r < q → r ∈ used) ∧
      ((∀ r, p ≤ r → r < p + fuel → r ∈ used) →
        allocPortGo p fuel used = .error "No available ports") := by
  induction fuel with
  | zero =>
    intro p used
    exact ⟨fun q u' h => by simp [allocPortGo] at h, fun _ => rfl⟩
  | succ f ih =>
    intro p used
    by_cases hmem : p ∈ used
    · constructor
      · intro q u' h
        rw [allocPortGo, if_pos hmem] at h
        obtain ⟨h1, h2, h3, h4, h5⟩ := (ih (p + 1) used).1 q u' h
        refine ⟨by omega, by omega, h3, h4, fun r hr1 hr2 => ?_⟩
        rcases Nat.eq_or_lt_of_le hr1 with rfl | hlt
        · exact hmem
        · exact h5 r (by omega) hr2
      · intro hall
        rw [allocPortGo, if_pos hmem]
        exact (ih (p + 1) used).2 (fun r h1 h2 => hall r (by omega) (by omega))
    · constructor
      · intro q u' h
        rw [allocPortGo, if_neg hmem] at h
        obtain ⟨rfl, rfl⟩ : q = p ∧ u' = used.insert p := by
          cases h; exact ⟨rfl, rfl⟩
        exact ⟨le_rfl, by omega, hmem, rfl, fun r h1 h2 => by omega⟩
      · intro hall
        exact absurd (hall p le_rfl (by omega)) hmem

/-- C7: for every state of the leased-port set, `allocPort` returns the
lowest port in [27183, 28000) that is not currently leased and marks it
leased (first conjunct: any successful result is in range, was free, is the
least free port, and is added to the leased set); when every port in the
range is leased it throws `'No available ports'` instead of returning a port
(second conjunct). -/
theorem allocPort_spec (used : List Nat) :
    (∀ p u', allocPort used = .ok (p, u') →
      27183 ≤ p ∧ p < 28000 ∧ p ∉ used ∧ u' = used.insert p ∧
      ∀ q, 27183 ≤ q → q < p → q ∈ used) ∧
    ((∀ q, 27183 ≤ q → q < 28000 → q ∈ used) →
      allocPort used = .error "No available ports") := by
  have h := allocPortGo_spec 817 27183 used
  constructor
  · intro p u' hok
    obtain ⟨h1, h2, h3, h4, h5⟩ := h.1 p u' hok
    exact ⟨h1, by omega, h3, h4, h5⟩
  · intro hall
    exact h.2 (fun r h1 h2 => hall r h1 (by omega))

/-- Witness for C7: with every port in the range leased, allocation throws;
with nothing leased, the lowest port 27183 is leased. -/
theorem allocPort_spec_witness :
    allocPort (List.range' 27183 817) = .error "No available ports" ∧
    allocPort [] = .ok (27183, [27183]) :=
  ⟨(allocPort_spec (List.range' 27183 817)).2
      (fun q h1 h2 => by rw [List.mem_range'_1]; omega),
   rfl⟩

theorem scanRemoveGo_noop (entries : List (String × Nat)) (devices : List String)
    (w : World) (h : ∀ e ∈ entries, e.1 ∈ devices) :
    scanRemoveGo entries devices w = (w, []) := by
  induction entries with
  | nil => rfl
  | cons e rest ih =>
    obtain ⟨s, p⟩ := e
    rw [scanRemoveGo, if_pos (h (s, p) (by simp))]
    exact ih (fun e he => h e (by simp [he]))

theorem scanRemoveGo_active (entries : List (String × Nat)) (devices : List String) :
    ∀ (w : World), (∀ e ∈ w.activeClients, e ∈ entries ∨ e.1 ∈ devices) →
      ∀ e ∈ (scanRemoveGo entries devices w).1.activeClients, e.1 ∈ devices := by
  induction entries with
  | nil =>
    intro w h e he
    rcases h e he with hc | hc
    · simp at hc
    · exact hc
  | cons ep rest ih =>
    intro w h e he
    obtain ⟨s, p⟩ := ep
    by_cases hs : s ∈ devices
    · rw [scanRemoveGo, if_pos hs] at he
      refine ih w ?_ e he
      intro e' he'
      rcases h e' he' with hc | hc
      · rcases List.mem_cons.1 hc with rfl | hc2
        · exact Or.inr hs
        · exact Or.inl hc2
      · exact Or.inr hc
    · rw [scanRemoveGo, if_neg hs] at he
      simp only at he
      refine ih _ ?_ e he
      intro e' he'
      simp only [List.mem_filter, decide_eq_true_eq] at he'
      obtain ⟨he'w, he's⟩ := he'
      rcases h e' he'w with hc | hc
      · rcases List.mem_cons.1 hc with rfl | hc2
        · exact absurd rfl he's
        · exact Or.inl hc2
      · exact Or.inr hc

theorem scanAddGo_mono (devices : List String) :
    ∀ (w : World) (x : String × Nat), x ∈ w.activeClients →
      x ∈ (scanAddGo devices w).1.activeClients := by
  induction devices with
  | nil => intro w x hx; exact hx
  | cons d rest ih =>
    intro w x hx
    rw [scanAddGo]
    by_cases hany : w.activeClients.any (fun e => e.1 == d)
    · rw [if_pos hany]
      exact ih w x hx
    · rw [if_neg hany]
      match halloc : allocPort w.usedPorts with
      | .error msg => exact hx
      | .ok (p, used') =>
        simp only
        exact ih _ x (by simp [hx])

theorem scanAddGo_active (devices : List String) :
    ∀ (w : World), ∀ e ∈ (scanAddGo devices w).1.activeClients,
      e ∈ w.activeClients ∨ e.1 ∈ devices := by
  induction devices with
  | nil => intro w e he; exact Or.inl he
  | cons d rest ih =>
    intro w e he
    rw [scanAddGo] at he
    by_cases hany : w.activeClients.any (fun e => e.1 == d)
    · rw [if_pos hany] at he
      rcases ih w e he with hc | hc
      · exact Or.inl hc
      · exact Or.inr (by simp [hc])
    · rw [if_neg hany] at he
      match halloc : allocPort w.usedPorts with
      | .error msg =>
        rw [halloc] at he
        exact Or.inl he
      | .ok (p, used') =>
        rw [halloc] at he
        simp only at he
        rcases ih _ e he with hc | hc
        · rcases List.mem_append.1 hc with hc2 | hc2
          · exact Or.inl hc2
          · simp only [List.mem_singleton] at hc2
            subst hc2
            exact Or.inr (by simp)
        · exact Or.inr (by simp [hc])

theorem scanAddGo_saturate (devices : List String) :
    ∀ (w : World), ∀ d ∈ devices,
      (scanAddGo devices w).1.activeClients.any (fun e => e.1 == d) = true ∨
      ∃ msg, allocPort (scanAddGo devices w).1.usedPorts = .error msg := by
  induction devices with
  | nil => intro w d hd; simp at hd
  | cons d0 rest ih =>
    intro w d hd
    rw [scanAddGo]
    by_cases hany : w.activeClients.any (fun e => e.1 == d0)
    · rw [if_pos hany]
      rcases List.mem_cons.1 hd with rfl | hd2
      · left
        rw [List.any_eq_true] at hany ⊢
        obtain ⟨x, hx, hxd⟩ := hany
        exact ⟨x, scanAddGo_mono rest w x hx, hxd⟩
      · exact ih w d hd2
    · rw [if_neg hany]
      match halloc : allocPort w.usedPorts with
      | .error msg =>
        simp only
        exact Or.inr ⟨msg, halloc⟩
      | .ok (p, used') =>
        simp only
        rcases List.mem_cons.1 hd with rfl | hd2
        · left
          rw [List.any_eq_true]
          refine ⟨(d, p), scanAddGo_mono rest _ (d, p) (by simp), by simp⟩
        · exact ih _ d hd2

theorem scanAddGo_noop (devices : List String) :
    ∀ (w : World),
      (∀ d ∈ devices, (w.activeClients.any (fun e => e.1 == d) = true) ∨
        ∃ msg, allocPort w.usedPorts = .error msg) →
      scanAddGo devices w = (w, []) := by
  induction devices with
  | nil => intro w _; rfl
  | cons d rest ih =>
    intro w h
    rw [scanAddGo]
    rcases h d (by simp) with hany | ⟨msg, herr⟩
    · rw [if_pos hany]
      exact ih w (fun d' hd' => h d' (by simp [hd']))
    · by_cases hany : w.activeClients.any (fun e => e.1 == d)
      · rw [if_pos hany]
        exact ih w (fun d' hd' => h d' (by simp [hd']))
      · rw [if_neg hany, herr]

/-- C8: running the scanner's reconciliation twice in succession against an
unchanged device set performs no session creations, destructions, port
allocations or port releases on the second run (its action trace is empty),
and leaves the state exactly as the first run left it — for every starting
state, including runs cut short by port exhaustion. -/
theorem deviceScanner_idempotent (w : World) (devices : List String) :
    deviceScanner (deviceScanner w devices).1 devices =
      ((deviceScanner w devices).1, []) := by
  have hactive : ∀ e ∈ (deviceScanner w devices).1.activeClients, e.1 ∈ devices := by
    intro e he
    rcases scanAddGo_active devices _ e he with h | h
    · exact scanRemoveGo_active w.activeClients devices w (fun x hx => Or.inl hx) e h
    · exact h
  have hsat := scanAddGo_saturate devices (scanRemoveGo w.activeClients devices w).1
  show (let r1 := scanRemoveGo (deviceScanner w devices).1.activeClients devices
          (deviceScanner w devices).1
        let r2 := scanAddGo devices r1.1
        (r2.1, r1.2 ++ r2.2)) = ((deviceScanner w devices).1, [])
  rw [scanRemoveGo_noop _ _ _ hactive]
  simp only
  rw [scanAddGo_noop devices (deviceScanner w devices).1 hsat]
  rfl

/-- C4 (amended): when a session is stopped, the transport socket (if
present), the local listener (if present) and the agent subprocess (if
present) are all released, each attempted regardless of the others (all
appear in the one teardown trace), and the handles are nulled; but the
leased port is NOT released by `stop()` itself — on the agent-exit path
`usedPorts` is unchanged and no port-release step occurs; the port is
released only by the scanner's removal path when the device disappears from
the discovered set. -/
theorem stop_releases (c : ClientHandles) (w : SessWorld) :
    (stopClient c).1 = ⟨none, none, none⟩ ∧
    (c.socket.isSome = true → StopAction.destroySocket ∈ (stopClient c).2) ∧
    (c.localServer.isSome = true → StopAction.closeServer ∈ (stopClient c).2) ∧
    (c.adbProcess.isSome = true → StopAction.killProcess ∈ (stopClient c).2) ∧
    StopAction.emitStopped ∈ (stopClient c).2 ∧
    (onAgentExit w).1.usedPorts = w.usedPorts ∧
    (∀ p, StopAction.portReleased p ∉ (stopClient c).2) ∧
    (scannerRemoveSession w).1.usedPorts = freePort w.port w.usedPorts ∧
    StopAction.portReleased w.port ∈ (scannerRemoveSession w).2 := by
  obtain ⟨s, l, a⟩ := c
  cases s <;> cases l <;> cases a <;>
    simp [stopClient, onAgentExit, scannerRemoveSession]

/-- Witness for C4's amended theorem at a fully populated session. -/
theorem stop_releases_witness :
    StopAction.destroySocket ∈
      (stopClient ⟨some (), some (), some ()⟩).2 ∧
    (onAgentExit ⟨⟨some (), some (), some ()⟩, 27183, [27183]⟩).1.usedPorts =
      [27183] :=
  ⟨(stop_releases ⟨some (), some (), some ()⟩
      ⟨⟨some (), some (), some ()⟩, 27183, [27183]⟩).2.1 rfl,
   (stop_releases ⟨some (), some (), some ()⟩
      ⟨⟨some (), some (), some ()⟩, 27183, [27183]⟩).2.2.2.2.2.1⟩

/-- C4 counterexample to the claim as stated: a session entering Stopping
via agent exit (its `close` handler calls `stop()`) releases the socket,
listener and subprocess, but its leased port 27183 remains leased —
contradicting "all four releases occur" on every entry into Stopping. -/
theorem stop_releases_counterexample :
    27183 ∈ (onAgentExit
      ⟨⟨some (), some (), some ()⟩, 27183, [27183]⟩).1.usedPorts ∧
    StopAction.portReleased 27183 ∉ (onAgentExit
      ⟨⟨some (), some (), some ()⟩, 27183, [27183]⟩).2 ∧
    StopAction.destroySocket ∈ (onAgentExit
      ⟨⟨some (), some (), some ()⟩, 27183, [27183]⟩).2 ∧
    StopAction.closeServer ∈ (onAgentExit
      ⟨⟨some (), some (), some ()⟩, 27183, [27183]⟩).2 ∧
    StopAction.killProcess ∈ (onAgentExit
      ⟨⟨some (), some (), some ()⟩, 27183, [27183]⟩).2 := by
  decide

theorem find?_map_append_one (l : List (Nat × List (List Nat))) (vid : Nat)
    (buf : List Nat) (log : List (List Nat))
    (h : (l.find? (fun v => v.1 == vid)).map (fun v => v.2) = some log) :
    (((l.map (fun v => (v.1, v.2 ++ [buf]))).find?
      (fun v => v.1 == vid)).map (fun v => v.2)) = some (log ++ [buf]) := by
  induction l with
  | nil => simp [List.find?] at h
  | cons v rest ih =>
    by_cases hv : (v.1 == vid) = true
    · simp only [List.find?, hv] at h
      simp only [List.map_cons, List.find?, hv]
      simp at h
      simp [← h]
    · have hvf : (v.1 == vid) = false := by simpa using hv
      simp only [List.find?, hvf] at h
      simp only [List.map_cons, List.find?, hvf]
      exact ih h

theorem viewerLog_onVideoData (w : WsWorld) (vid : Nat) (buf : List Nat)
    (log : List (List Nat)) (h : viewerLog w vid = some log) :
    viewerLog (onVideoData w buf) vid = some (log ++ [buf]) := by
  unfold viewerLog at h ⊢
  unfold onVideoData
  exact find?_map_append_one w.viewers vid buf log h

theorem viewerLog_foldl (live : List (List Nat)) :
    ∀ (w : WsWorld) (vid : Nat) (log : List (List Nat)),
      viewerLog w vid = some log →
      viewerLog (live.foldl onVideoData w) vid = some (log ++ live) := by
  induction live with
  | nil => intro w vid log h; simpa using h
  | cons buf rest ih =>
    intro w vid log h
    rw [List.foldl_cons]
    have := ih (onVideoData w buf) vid (log ++ [buf])
      (viewerLog_onVideoData w vid buf log h)
    simpa using this

theorem find?_append_fresh (l : List (Nat × List (List Nat))) (vid : Nat)
    (x : Nat × List (List Nat)) (hx : (x.1 == vid) = true)
    (hfresh : ∀ v ∈ l, v.1 ≠ vid) :
    (l ++ [x]).find? (fun v => v.1 == vid) = some x := by
  induction l with
  | nil => simp [List.find?, hx]
  | cons v rest ih =>
    have hv : (v.1 == vid) = false := by
      have := hfresh v (by simp)
      simpa using this
    rw [List.cons_append]
    simp only [List.find?, hv]
    exact ih (fun v' hv' => hfresh v' (by simp [hv']))

theorem viewerLog_onConnection (w : WsWorld) (vid : Nat)
    (hfresh : ∀ v ∈ w.viewers, v.1 ≠ vid) :
    viewerLog (onConnection w vid) vid = some (replayCache w.cache) := by
  unfold viewerLog onConnection
  simp only
  rw [find?_append_fresh w.viewers vid (vid, replayCache w.cache)
    (by simp) hfresh]
  rfl

/-- C9: a viewer that connects while the cache already holds SPS
(parameter-set-A), PPS (parameter-set-B) and an IDR keyframe receives
exactly those three cached packets, in the order SPS, PPS, IDR, before every
live packet that arrives after it subscribed. -/
theorem keyframe_replay (cache : NalCache) (a b k : List Nat)
    (viewers : List (Nat × List (List Nat))) (vid : Nat)
    (live : List (List Nat))
    (hsps : cache.sps = some a) (hpps : cache.pps = some b)
    (hidr : cache.idr = some k)
    (hfresh : ∀ v ∈ viewers, v.1 ≠ vid) :
    viewerLog (live.foldl onVideoData (onConnection ⟨cache, viewers⟩ vid)) vid =
      some ([a, b, k] ++ live) := by
  have hconn := viewerLog_onConnection ⟨cache, viewers⟩ vid hfresh
  have hreplay : replayCache cache = [a, b, k] := by
    unfold replayCache
    rw [hsps, hpps, hidr]
    rfl
  rw [hreplay] at hconn
  exact viewerLog_foldl live _ vid _ hconn

/-- Witness for C9 at a concrete cache, one pre-existing viewer and two live
packets. -/
theorem keyframe_replay_witness :
    viewerLog
      ([[10], [11]].foldl onVideoData
        (onConnection ⟨⟨some [7], some [8], some [5]⟩, [(0, [[3]])]⟩ 1)) 1 =
      some ([[7], [8], [5]] ++ [[10], [11]]) :=
  keyframe_replay ⟨some [7], some [8], some [5]⟩ [7] [8] [5] [(0, [[3]])] 1
    [[10], [11]] rfl rfl rfl (by decide)
